import Mathlib

set_option maxRecDepth 100000
set_option maxHeartbeats 1000000

/-!
Verification of the fraud-ring enrichment transform (`scripts/enrich_sample.py`).

The development shallowly embeds the transform: pure helpers become Lean
functions; every call to the seeded random source is modelled by an oracle
argument (a function from a draw position to a natural number), so theorems
quantify over every possible sequence of draws; `np.random.randint(lo, hi)`
on draw value `v` is modelled as `lo + v % (hi - lo)`; sampling without
replacement is modelled as taking a prefix of an oracle-chosen permutation;
the iteration order of a Python `set` (an environment artifact, not
controlled by the seed) is modelled as an oracle-chosen enumeration of the
deduplicated list.  SHA-256 is implemented in full so that hash-dependent
values evaluate concretely.
-/

namespace FraudEnrich

/-! ## SHA-256 (used by `stable_hash_to_int` in the script) -/

/-- Truncate to 32 bits. -/
def w32 (x : Nat) : Nat := x % 4294967296

/-- 32-bit right rotation. -/
def rotr (n x : Nat) : Nat := w32 ((x >>> n) ||| (x <<< (32 - n)))

def shaCh (x y z : Nat) : Nat := (x &&& y) ^^^ ((x ^^^ 4294967295) &&& z)

def shaMaj (x y z : Nat) : Nat := (x &&& y) ^^^ (x &&& z) ^^^ (y &&& z)

def bigSigma0 (x : Nat) : Nat := rotr 2 x ^^^ rotr 13 x ^^^ rotr 22 x

def bigSigma1 (x : Nat) : Nat := rotr 6 x ^^^ rotr 11 x ^^^ rotr 25 x

def smallSigma0 (x : Nat) : Nat := rotr 7 x ^^^ rotr 18 x ^^^ (x >>> 3)

def smallSigma1 (x : Nat) : Nat := rotr 17 x ^^^ rotr 19 x ^^^ (x >>> 10)

/-- The 64 SHA-256 round constants. -/
def sha256K : List Nat :=
  [1116352408, 1899447441, 3049323471, 3921009573, 961987163, 1508970993,
   2453635748, 2870763221, 3624381080, 310598401, 607225278, 1426881987,
   1925078388, 2162078206, 2614888103, 3248222580, 3835390401, 4022224774,
   264347078, 604807628, 770255983, 1249150122, 1555081692, 1996064986,
   2554220882, 2821834349, 2952996808, 3210313671, 3336571891, 3584528711,
   113926993, 338241895, 666307205, 773529912, 1294757372, 1396182291,
   1695183700, 1986661051, 2177026350, 2456956037, 2730485921, 2820302411,
   3259730800, 3345764771, 3516065817, 3600352804, 4094571909, 275423344,
   430227734, 506948616, 659060556, 883997877, 958139571, 1322822218,
   1537002063, 1747873779, 1955562222, 2024104815, 2227730452, 2361852424,
   2428436474, 2756734187, 3204031479, 3329325298]

/-- The SHA-256 initial hash state. -/
def sha256H0 : List Nat :=
  [1779033703, 3144134277, 1013904242, 2773480762, 1359893119, 2600822924,
   528734635, 1541459225]

/-- `n`-byte big-endian encoding of `v`. -/
def beBytes : Nat → Nat → List Nat
  | 0, _ => []
  | n + 1, v => beBytes n (v / 256) ++ [v % 256]

/-- SHA-256 message padding: append `0x80`, zero bytes up to 56 mod 64,
then the 8-byte big-endian bit length. -/
def sha256Pad (msg : List Nat) : List Nat :=
  msg ++ 128 :: List.replicate ((119 - msg.length % 64) % 64) 0 ++ beBytes 8 (8 * msg.length)

/-- Split a byte list into 64-byte blocks.  Structural recursion on a fuel
argument so the kernel can evaluate it; each step consumes 64 bytes, so a fuel
of the list length never runs out. -/
def chunks64Aux : Nat → List Nat → List (List Nat)
  | _, [] => []
  | 0, _ :: _ => []
  | fuel + 1, x :: xs => ((x :: xs).take 64) :: chunks64Aux fuel ((x :: xs).drop 64)

def chunks64 (l : List Nat) : List (List Nat) := chunks64Aux l.length l

/-- Big-endian word from bytes. -/
def beWord (bs : List Nat) : Nat := bs.foldl (fun a b => 256 * a + b) 0

/-- The first 16 schedule words of a 64-byte block. -/
def blockWords (block : List Nat) : List Nat :=
  (List.range 16).map (fun i => beWord ((block.drop (4 * i)).take 4))

/-- One schedule-extension step; the schedule is kept reversed (head = newest). -/
def scheduleStep (wrev : List Nat) : List Nat :=
  w32 (smallSigma1 (wrev.getD 1 0) + wrev.getD 6 0 +
       smallSigma0 (wrev.getD 14 0) + wrev.getD 15 0) :: wrev

/-- The full 64-word message schedule of one block. -/
def schedule (block : List Nat) : List Nat :=
  ((List.range 48).foldl (fun acc _ => scheduleStep acc) (blockWords block).reverse).reverse

structure Hash8 where
  a : Nat
  b : Nat
  c : Nat
  d : Nat
  e : Nat
  f : Nat
  g : Nat
  h : Nat

/-- One SHA-256 compression round; `wk` is the pair (schedule word, constant). -/
def shaRound (s : Hash8) (wk : Nat × Nat) : Hash8 :=
  let t1 := w32 (s.h + bigSigma1 s.e + shaCh s.e s.f s.g + wk.2 + wk.1)
  let t2 := w32 (bigSigma0 s.a + shaMaj s.a s.b s.c)
  { a := w32 (t1 + t2), b := s.a, c := s.b, d := s.c,
    e := w32 (s.d + t1), f := s.e, g := s.f, h := s.g }

def listToHash8 (l : List Nat) : Hash8 :=
  { a := l.getD 0 0, b := l.getD 1 0, c := l.getD 2 0, d := l.getD 3 0,
    e := l.getD 4 0, f := l.getD 5 0, g := l.getD 6 0, h := l.getD 7 0 }

def hash8ToList (s : Hash8) : List Nat := [s.a, s.b, s.c, s.d, s.e, s.f, s.g, s.h]

/-- Compress one 64-byte block into the running hash state. -/
def sha256Compress (hs : List Nat) (block : List Nat) : List Nat :=
  let s := ((schedule block).zip sha256K).foldl shaRound (listToHash8 hs)
  (hs.zip (hash8ToList s)).map (fun p => w32 (p.1 + p.2))

/-- The SHA-256 digest of a byte list, as the 256-bit natural number
`int(hexdigest, 16)`. -/
def sha256Nat (msg : List Nat) : Nat :=
  ((chunks64 (sha256Pad msg)).foldl sha256Compress sha256H0).foldl
    (fun a x => 4294967296 * a + x) 0

/-- Byte encoding of a string; the script only hashes ASCII strings, on which
code points and UTF-8 bytes agree. -/
def strBytes (s : String) : List Nat := s.toList.map Char.toNat

/-- FIPS 180-4 test vector: SHA-256 of the empty message. -/
example : sha256Nat (strBytes "") =
    102987336249554097029535212322581322789799900648198034993379397001115665086549 := by
  decide

/-- FIPS 180-4 test vector: SHA-256 of "abc". -/
example : sha256Nat (strBytes "abc") =
    84342368487090800366523834928142263660104883695016514377462985829716817089965 := by
  decide

/-! ## Configuration constants (lines 36-44 of the script) -/

/-- Zero-padded decimal rendering, as Python's `f"{n:0wd}"`. -/
def padNum (w n : Nat) : String :=
  String.mk (List.replicate (w - (toString n).length) '0') ++ toString n

/-- `np.random.randint(lo, hi)` on raw draw `v`: uniform over `[lo, hi)`. -/
def randint (lo hi v : Nat) : Nat := lo + v % (hi - lo)

def CLUSTER_MIN_SIZE : Nat := 2

def CLUSTER_MAX_SIZE : Nat := 5

def EMAIL_VARIANTS_PER_CLUSTER : Nat := 30

/-- `[f"AD{n:03d}" for n in range(1, 6)]`. -/
def FRAUD_TARGET_ADS : List String := (List.range 5).map (fun n => "AD" ++ padNum 3 (n + 1))

/-- `[f"AD{n:03d}" for n in range(1, 21)]`. -/
def ALL_ADS : List String := (List.range 20).map (fun n => "AD" ++ padNum 3 (n + 1))

def COUNTRIES : List String :=
  ["US", "FR", "IN", "CN", "BR", "GB", "DE", "ES", "IT", "MX"]

def CONNECTION_TYPES : List String := ["wifi", "4g", "5g"]

/-- Baseline e-mail domains (line 113). -/
def domains : List String := ["gmail.com", "yahoo.com", "outlook.com", "proton.me"]

/-- The fraud-row e-mail domain list (literal at line 184). -/
def fraud_email_domains : List String := ["gmail.com", "outlook.com", "mail.ru", "yahoo.com"]

/-! ## Helpers (lines 47-80 of the script) -/

/-- `stable_hash_to_int(*vals, modulo)`: SHA-256 of the pipe-joined string
forms, reduced modulo the bound. -/
def stable_hash_to_int (vals : List String) (modulo : Nat) : Nat :=
  sha256Nat (strBytes (String.intercalate "|" vals)) % modulo

/-- `gen_user_id(ip, device, os_)` with the default `jitter=1000000`. -/
def gen_user_id (ip device os_ : Nat) : String :=
  "U" ++ padNum 7 (stable_hash_to_int [toString ip, toString device, toString os_] 1000000)

/-- The string `f"{device}-{os_}-{app}-{channel}"` that `gen_fingerprint`
feeds to MD5.  The MD5 truncation itself is modelled as an uninterpreted
environment function (`Rand.md5trunc`): no claim depends on its value. -/
def gen_fingerprint_base (device os_ app channel : Nat) : String :=
  toString device ++ "-" ++ toString os_ ++ "-" ++ toString app ++ "-" ++ toString channel

def email_from_handle (handle domain : String) : String := handle ++ "@" ++ domain

/-- `plus_variant`: append `+promo` and a `randint(1, 9)` digit. -/
def plus_variant (v : Nat) (handle : String) : String :=
  handle ++ "+promo" ++ toString (randint 1 9 v)

def insertAt (c : Char) (pos : Nat) (l : List Char) : List Char :=
  l.take pos ++ c :: l.drop pos

/-- Core of `dot_variant` / `underscore_variant`: if `c` already occurs or the
handle is shorter than 3 characters return it unchanged, otherwise insert `c`
at position `randint(1, len - 1)`. -/
def variantCore (c : Char) (v : Nat) (l : List Char) : List Char :=
  if c ∈ l ∨ l.length < 3 then l else insertAt c (randint 1 (l.length - 1) v) l

def dot_variant (v : Nat) (handle : String) : String :=
  String.mk (variantCore '.' v handle.toList)

def underscore_variant (v : Nat) (handle : String) : String :=
  String.mk (variantCore '_' v handle.toList)

/-- `random_handle(base, span)`: base plus a zero-padded `randint(0, span)`. -/
def random_handle (base : String) (span v : Nat) : String :=
  base ++ padNum 6 (randint 0 span v)

/-! ## Data model -/

/-- One input row of `train_sample.csv` (TalkingData schema, line 88). -/
structure InRow where
  ip : Nat
  app : Nat
  device : Nat
  os : Nat
  channel : Nat
  click_time : String
  attributed_time : String
  is_attributed : Nat
deriving DecidableEq

/-- One enriched row: the input columns plus the eight added columns. -/
structure Row extends InRow where
  ad_id : String
  user_id : String
  country : String
  device_fingerprint : String
  connection_type : String
  email : String
  fraud_cluster_id : Nat
  is_synthetic_fraud : Bool
deriving DecidableEq

/-- A fraud ring: sequential id and the list of member hub IPs
(lines 126-135). -/
structure Cluster where
  cluster_id : Nat
  ips : List Nat
deriving DecidableEq

/-- The oracle bundle standing for every consumption of the seeded random
source, plus two environment artifacts the script does not control: the
iteration order of Python `set`s and the MD5 digest function.  Index
arguments are the draw positions (row index, cluster id, ...), so a fixed
oracle bundle is exactly one run's worth of draws. -/
structure Rand where
  /-- Baseline `ad_id` draw per row (line 92). -/
  adPick : Nat → Nat
  /-- Baseline `country` draw per row (line 101). -/
  countryPick : Nat → Nat
  /-- Baseline `connection_type` draw per row (line 110). -/
  connPick : Nat → Nat
  /-- Baseline e-mail domain draw per row (line 115). -/
  domPick : Nat → Nat
  /-- Truncated MD5 digest used for the baseline fingerprint (line 57). -/
  md5trunc : String → String
  /-- `np.random.choice(..., replace=False)` at line 123, modelled as an
  RNG-chosen permutation of which a prefix is taken. -/
  ipPerm : List Nat → List Nat
  /-- Iteration order of the Python set `hub_ips` (line 126). -/
  ipEnum : List Nat → List Nat
  /-- Cluster size draws `np.random.randint(2, 6)` (line 131). -/
  sizePick : Nat → Nat
  /-- `plus_variant` draw, per cluster id and base-handle index (line 144). -/
  vplus : Nat → Nat → Nat
  /-- `dot_variant` draw (line 145). -/
  vdot : Nat → Nat → Nat
  /-- `underscore_variant` draw (line 146). -/
  vund : Nat → Nat → Nat
  /-- Iteration order of the Python set `set(pool)` per cluster (line 147). -/
  poolEnum : Nat → List String → List String
  /-- Target-ad count draw `np.random.randint(1, 4)` per cluster (line 153). -/
  tadSize : Nat → Nat
  /-- Target-ad choice without replacement per cluster (line 153). -/
  tadPerm : Nat → List String → List String
  /-- Fraud `ad_id` draw per cluster and row (line 177). -/
  fAdPick : Nat → Nat → Nat
  /-- Fraud e-mail handle draw per cluster and row (line 183). -/
  fHandlePick : Nat → Nat → Nat
  /-- Fraud e-mail domain draw per cluster and row (line 184). -/
  fDomPick : Nat → Nat → Nat
  /-- `random_handle("u")` draws for `base_users` (line 189). -/
  baseUserPick : Nat → Nat → Nat
  /-- Fraud `user_id` draw per cluster and row (line 190). -/
  fUserPick : Nat → Nat → Nat
  /-- Membership of a row in the 30% geographic-noise sub-sample
  (`df.loc[mask].sample(frac=0.30)`, line 196). -/
  subSample : Nat → Nat → Bool
  /-- Noise `country` draw per cluster and row (line 197). -/
  noiseCountry : Nat → Nat → Nat

/-- The constraints every real run satisfies: a `choice(..., replace=False)`
permutes its input, and iterating a Python set enumerates the distinct
elements, i.e. yields some permutation of the deduplicated list. -/
structure RandOk (R : Rand) : Prop where
  ipPerm_perm : ∀ l, (R.ipPerm l).Perm l
  ipEnum_perm : ∀ l, (R.ipEnum l).Perm l.dedup
  poolEnum_perm : ∀ cid l, (R.poolEnum cid l).Perm l.dedup
  tadPerm_perm : ∀ cid l, (R.tadPerm cid l).Perm l

/-! ## The pipeline -/

/-- `np.random.choice(lst)` (uniform over a non-empty list) on raw draw `v`. -/
def getU (l : List String) (v : Nat) : String := l.getD (v % l.length) ""

/-- Python `s[-k:]`. -/
def takeLast (k : Nat) (s : String) : String :=
  String.mk (s.toList.drop (s.toList.length - k))

/-- Baseline (non-fraud) enrichment of the row at index `i` (lines 90-117,
162-163): the input columns are kept and the eight new columns are added,
with `fraud_cluster_id = 0` and `is_synthetic_fraud = False`. -/
def base_enrich (R : Rand) (i : Nat) (r : InRow) : Row :=
  let uid := gen_user_id r.ip r.device r.os
  { toInRow := r
    ad_id := getU ALL_ADS (R.adPick i)
    user_id := uid
    country := getU COUNTRIES (R.countryPick i)
    device_fingerprint := R.md5trunc (gen_fingerprint_base r.device r.os r.app r.channel)
    connection_type := getU CONNECTION_TYPES (R.connPick i)
    email := email_from_handle ("user" ++ takeLast 6 uid) (getU domains (R.domPick i))
    fraud_cluster_id := 0
    is_synthetic_fraud := false }

def base_enrich_rows (R : Rand) : Nat → List InRow → List Row
  | _, [] => []
  | i, r :: rs => base_enrich R i r :: base_enrich_rows R (i + 1) rs

/-- One step of `df["ip"].unique()`: keep the first occurrence of each value. -/
def uniqStep (acc : List Nat) (x : Nat) : List Nat := if x ∈ acc then acc else acc ++ [x]

/-- `df["ip"].unique()` (line 121): distinct values in first-occurrence order. -/
def unique_ips (input : List InRow) : List Nat :=
  (input.map InRow.ip).foldl uniqStep []

/-- `max(1, int(len(unique_ips) * FRACTION_FRAUD_IPS))` (line 122), with
`FRACTION_FRAUD_IPS = 0.05` modelled as the exact rational `5 / 100`; `int`
truncates, which is floor division here. -/
def num_hub_ips (n : Nat) : Nat := max 1 (n * 5 / 100)

/-- `hub_ips_list = list(set(np.random.choice(unique_ips, num_hub_ips,
replace=False)))` (lines 123-126). -/
def hub_ips_list (R : Rand) (input : List InRow) : List Nat :=
  R.ipEnum ((R.ipPerm (unique_ips input)).take (num_hub_ips (unique_ips input).length))

/-- The cluster-building while loop (lines 126-135), structurally recursive on
a fuel argument so the kernel can evaluate it.  Every drawn size is at least
`m`, so when `1 ≤ m` a fuel of the list length never runs out; for `m = 0`
the Python loop itself would not terminate on an unlucky draw. -/
def build_clusters_aux (m M : Nat) (sizePick : Nat → Nat) :
    Nat → List Nat → Nat → Nat → List Cluster
  | _, [], _, _ => []
  | 0, _ :: _, _, _ => []
  | fuel + 1, x :: xs, step, cid =>
    let size := randint m (M + 1) (sizePick step)
    { cluster_id := cid, ips := (x :: xs).take size } ::
      build_clusters_aux m M sizePick fuel ((x :: xs).drop size) (step + 1) (cid + 1)

def build_clusters (m M : Nat) (sizePick : Nat → Nat) (l : List Nat) : List Cluster :=
  build_clusters_aux m M sizePick l.length l 0 1

def clusters_of (R : Rand) (input : List InRow) : List Cluster :=
  build_clusters CLUSTER_MIN_SIZE CLUSTER_MAX_SIZE R.sizePick (hub_ips_list R input)

/-- `build_email_pool` (lines 138-147) at its call-site arguments
(`base_root="frauder"`, `pool_size=EMAIL_VARIANTS_PER_CLUSTER`): for each base
handle emit the handle and its three variants, then `list(set(pool))`,
modelled by the set-enumeration oracle applied to the collected list. -/
def build_email_pool (vplus vdot vund : Nat → Nat)
    (setEnum : List String → List String) : List String :=
  setEnum (((List.range EMAIL_VARIANTS_PER_CLUSTER).map (fun i =>
    let h := "frauder" ++ padNum 3 i
    [h, plus_variant (vplus i) h, dot_variant (vdot i) h,
     underscore_variant (vund i) h])).flatten)

/-- `cluster_email_pools[cid]` (line 149). -/
def cluster_email_pool (R : Rand) (cid : Nat) : List String :=
  build_email_pool (R.vplus cid) (R.vdot cid) (R.vund cid) (R.poolEnum cid)

/-- `cluster_target_ads[cid]` (lines 152-155): `randint(1, 4)` fraud-prone ads
drawn without replacement. -/
def cluster_target_ads (R : Rand) (cid : Nat) : List String :=
  (R.tadPerm cid FRAUD_TARGET_ADS).take (randint 1 4 (R.tadSize cid))

/-- `cluster_fingerprints[cid] = f"fp_{stable_hash_to_int(*c['ips'],
modulo=10**8):08d}"` (lines 156-159): the hub-IP list is hashed in its stored
order. -/
def cluster_fingerprint (c : Cluster) : String :=
  "fp_" ++ padNum 8 (stable_hash_to_int (c.ips.map toString) (10 ^ 8))

/-- The sock-puppet sampling universe of one cluster (lines 187-192):
`max(50, mask.sum() // 10)` fresh random handles together with the current
`user_id` values of the masked rows. -/
def cluster_universe (R : Rand) (c : Cluster) (rows : List Row) : List String :=
  let maskedUsers := (rows.filter (fun r => decide (r.ip ∈ c.ips))).map Row.user_id
  (List.range (max 50 (maskedUsers.length / 10))).map
    (fun j => random_handle "u" 999999 (R.baseUserPick c.cluster_id j)) ++ maskedUsers

/-- The per-row effect of the cluster override loop body (lines 172-197) on a
masked row at global index `i`. -/
def overridden_row (R : Rand) (c : Cluster) (uverse : List String) (i : Nat)
    (r : Row) : Row :=
  let cid := c.cluster_id
  let r1 : Row :=
    { r with
      fraud_cluster_id := cid
      is_synthetic_fraud := true
      ad_id := getU (cluster_target_ads R cid) (R.fAdPick cid i)
      device_fingerprint := cluster_fingerprint c
      email := email_from_handle (getU (cluster_email_pool R cid) (R.fHandlePick cid i))
        (getU fraud_email_domains (R.fDomPick cid i))
      user_id := getU uverse (R.fUserPick cid i) }
  if R.subSample cid i then
    { r1 with country := getU COUNTRIES (R.noiseCountry cid i) }
  else r1

def override_rows (R : Rand) (c : Cluster) (uverse : List String) :
    Nat → List Row → List Row
  | _, [] => []
  | i, r :: rs =>
    (if r.ip ∈ c.ips then overridden_row R c uverse i r else r) ::
      override_rows R c uverse (i + 1) rs

/-- One iteration of the cluster loop (lines 165-197), including the
`if not mask.any(): continue` guard. -/
def override_cluster (R : Rand) (c : Cluster) (rows : List Row) : List Row :=
  if ∀ r ∈ rows, r.ip ∉ c.ips then rows
  else override_rows R c (cluster_universe R c rows) 0 rows

/-- The whole enrichment transform on the in-memory table. -/
def enrich (R : Rand) (input : List InRow) : List Row :=
  (clusters_of R input).foldl (fun rows c => override_cluster R c rows)
    (base_enrich_rows R 0 input)

/-! ## Serialization (line 201) -/

/-- Pandas renders booleans as `True` / `False` in CSV output. -/
def serializeBool (b : Bool) : String := if b then "True" else "False"

/-- The header of the output CSV: the input columns followed by the added
columns in the order pandas created them (lines 92, 95, 101, 104, 110, 114,
162, 163). -/
def outputColumns : List String :=
  ["ip", "app", "device", "os", "channel", "click_time", "attributed_time",
   "is_attributed", "ad_id", "user_id", "country", "device_fingerprint",
   "connection_type", "email", "fraud_cluster_id", "is_synthetic_fraud"]

def inputColumns : List String :=
  ["ip", "app", "device", "os", "channel", "click_time", "attributed_time",
   "is_attributed"]

/-- One CSV record in the column order of `outputColumns`. -/
def serializeRow (r : Row) : List String :=
  [toString r.ip, toString r.app, toString r.device, toString r.os,
   toString r.channel, r.click_time, r.attributed_time, toString r.is_attributed,
   r.ad_id, r.user_id, r.country, r.device_fingerprint, r.connection_type,
   r.email, toString r.fraud_cluster_id, serializeBool r.is_synthetic_fraud]

def outputTable (R : Rand) (input : List InRow) : List (List String) :=
  outputColumns :: (enrich R input).map serializeRow

/-- The whole script as a one-shot batch run: `pd.read_csv` (line 84) either
yields the input table or raises, and the sole write (`df.to_csv`, line 201)
happens after the entire transform; there is no exception handler, so a
failed read aborts the run with no output.  The final write is treated as
atomic. -/
def runScript (R : Rand) (input : Except String (List InRow)) :
    Except String (List (List String)) := do
  let rows ← input
  pure (outputTable R rows)

/-! ## Basic lemmas -/

theorem randint_lb (lo hi v : Nat) : lo ≤ randint lo hi v := Nat.le_add_right _ _

theorem randint_ub (lo hi v : Nat) (h : lo < hi) : randint lo hi v < hi := by
  have hm : v % (hi - lo) < hi - lo := Nat.mod_lt _ (by omega)
  unfold randint
  omega

theorem getU_mem (l : List String) (v : Nat) (h : l ≠ []) : getU l v ∈ l := by
  have hlen : 0 < l.length := List.length_pos.mpr h
  have hm : v % l.length < l.length := Nat.mod_lt _ hlen
  rw [getU, List.getD_eq_getElem _ _ hm]
  exact List.getElem_mem hm

theorem foldl_uniqStep_nodup :
    ∀ (l : List Nat) (acc : List Nat), acc.Nodup → (l.foldl uniqStep acc).Nodup := by
  intro l
  induction l with
  | nil => intro acc h; simpa using h
  | cons x xs ih =>
    intro acc h
    apply ih
    unfold uniqStep
    by_cases hx : x ∈ acc
    · simpa [hx] using h
    · simp [hx, List.nodup_append, h]

theorem unique_ips_nodup (input : List InRow) : (unique_ips input).Nodup :=
  foldl_uniqStep_nodup _ [] (by simp)

theorem num_hub_ips_pos (n : Nat) : 1 ≤ num_hub_ips n := le_max_left _ _

theorem num_hub_ips_le (n : Nat) (h : 1 ≤ n) : num_hub_ips n ≤ n := by
  have h5 : n * 5 ≤ n * 100 := Nat.mul_le_mul_left n (by norm_num)
  have : n * 5 / 100 ≤ n * 100 / 100 := Nat.div_le_div_right h5
  rw [Nat.mul_div_cancel n (by norm_num : 0 < 100)] at this
  unfold num_hub_ips
  omega

theorem hub_ips_list_nodup (R : Rand) (input : List InRow) (hR : RandOk R) :
    (hub_ips_list R input).Nodup := by
  have h1 : (R.ipPerm (unique_ips input)).Nodup :=
    (hR.ipPerm_perm (unique_ips input)).symm.nodup (unique_ips_nodup input)
  exact (hR.ipEnum_perm _).symm.nodup (List.nodup_dedup _)

theorem hub_ips_list_subset (R : Rand) (input : List InRow) (hR : RandOk R) :
    ∀ x ∈ hub_ips_list R input, x ∈ unique_ips input := by
  intro x hx
  have h1 : x ∈ ((R.ipPerm (unique_ips input)).take
      (num_hub_ips (unique_ips input).length)).dedup :=
    ((hR.ipEnum_perm _).mem_iff).mp hx
  have h2 := List.mem_dedup.mp h1
  have h3 : x ∈ R.ipPerm (unique_ips input) := (List.take_sublist _ _).mem h2
  exact ((hR.ipPerm_perm _).mem_iff).mp h3

theorem hub_ips_list_length (R : Rand) (input : List InRow) (hR : RandOk R)
    (h : unique_ips input ≠ []) :
    (hub_ips_list R input).length = num_hub_ips (unique_ips input).length := by
  set u := unique_ips input with hu
  have hp := hR.ipPerm_perm u
  have htn : ((R.ipPerm u).take (num_hub_ips u.length)).Nodup :=
    (List.take_sublist _ _).nodup (hp.symm.nodup (unique_ips_nodup input))
  have h1 : (hub_ips_list R input).length =
      ((R.ipPerm u).take (num_hub_ips u.length)).dedup.length :=
    (hR.ipEnum_perm _).length_eq
  rw [h1, List.dedup_eq_self.mpr htn, List.length_take, hp.length_eq]
  have hle : num_hub_ips u.length ≤ u.length :=
    num_hub_ips_le _ (by
      have : 0 < u.length := List.length_pos.mpr h
      omega)
  omega

/-! ## Cluster-builder lemmas -/

theorem build_clusters_aux_spec (m M : Nat) (s : Nat → Nat) (hm : 1 ≤ m) (hM : m ≤ M) :
    ∀ (fuel : Nat) (l : List Nat) (step cid : Nat), l.length ≤ fuel →
      ((build_clusters_aux m M s fuel l step cid).map Cluster.ips).flatten = l ∧
      (build_clusters_aux m M s fuel l step cid).map Cluster.cluster_id =
        List.range' cid (build_clusters_aux m M s fuel l step cid).length ∧
      ∀ c ∈ build_clusters_aux m M s fuel l step cid, c.ips ≠ [] ∧ c.ips.length ≤ M := by
  intro fuel
  induction fuel with
  | zero =>
    intro l step cid hl
    cases l with
    | nil => simp [build_clusters_aux]
    | cons x xs => simp at hl
  | succ n ih =>
    intro l step cid hl
    cases l with
    | nil => simp [build_clusters_aux]
    | cons x xs =>
      have hsz1 : 1 ≤ randint m (M + 1) (s step) := le_trans hm (randint_lb _ _ _)
      have hszM : randint m (M + 1) (s step) ≤ M := by
        have := randint_ub m (M + 1) (s step) (by omega)
        omega
      have hrest : ((x :: xs).drop (randint m (M + 1) (s step))).length ≤ n := by
        rw [List.length_drop]
        simp only [List.length_cons] at hl ⊢
        omega
      obtain ⟨ihj, ihi, ihb⟩ := ih ((x :: xs).drop (randint m (M + 1) (s step)))
        (step + 1) (cid + 1) hrest
      refine ⟨?_, ?_, ?_⟩
      · simp only [build_clusters_aux, List.map_cons, List.flatten_cons, ihj]
        exact List.take_append_drop _ _
      · simp only [build_clusters_aux, List.map_cons, List.length_cons, ihi,
          List.range'_succ]
      · intro c hc
        simp only [build_clusters_aux, List.mem_cons] at hc
        rcases hc with hc | hc
        · subst hc
          constructor
          · have hlen : 0 < ((x :: xs).take (randint m (M + 1) (s step))).length := by
              rw [List.length_take]
              simp only [List.length_cons]
              omega
            exact List.ne_nil_of_length_pos hlen
          · have := List.length_take (randint m (M + 1) (s step)) (x :: xs)
            simp only [this]
            omega
        · exact ihb c hc

theorem build_clusters_flatten (m M : Nat) (s : Nat → Nat) (l : List Nat)
    (hm : 1 ≤ m) (hM : m ≤ M) :
    ((build_clusters m M s l).map Cluster.ips).flatten = l :=
  (build_clusters_aux_spec m M s hm hM l.length l 0 1 le_rfl).1

theorem build_clusters_ids (m M : Nat) (s : Nat → Nat) (l : List Nat)
    (hm : 1 ≤ m) (hM : m ≤ M) :
    (build_clusters m M s l).map Cluster.cluster_id =
      List.range' 1 (build_clusters m M s l).length :=
  (build_clusters_aux_spec m M s hm hM l.length l 0 1 le_rfl).2.1

theorem build_clusters_id_pos (m M : Nat) (s : Nat → Nat) (l : List Nat)
    (hm : 1 ≤ m) (hM : m ≤ M) :
    ∀ c ∈ build_clusters m M s l, 1 ≤ c.cluster_id := by
  intro c hc
  have h1 : c.cluster_id ∈ (build_clusters m M s l).map Cluster.cluster_id :=
    List.mem_map_of_mem _ hc
  rw [build_clusters_ids m M s l hm hM] at h1
  exact (List.mem_range'_1.mp h1).1

theorem build_clusters_disjoint (m M : Nat) (s : Nat → Nat) (l : List Nat)
    (hm : 1 ≤ m) (hM : m ≤ M) (hl : l.Nodup) :
    (build_clusters m M s l).Pairwise (fun c c' => c.ips.Disjoint c'.ips) := by
  have h1 : (((build_clusters m M s l).map Cluster.ips).flatten).Nodup := by
    rw [build_clusters_flatten m M s l hm hM]; exact hl
  have h2 := (List.nodup_flatten.mp h1).2
  exact List.pairwise_map.mp h2

theorem mem_build_clusters (m M : Nat) (s : Nat → Nat) (l : List Nat)
    (hm : 1 ≤ m) (hM : m ≤ M) (x : Nat) :
    x ∈ l ↔ ∃ c ∈ build_clusters m M s l, x ∈ c.ips := by
  have hf := build_clusters_flatten m M s l hm hM
  constructor
  · intro hx
    rw [← hf, List.mem_flatten] at hx
    obtain ⟨li, hli, hxx⟩ := hx
    obtain ⟨c, hc, rfl⟩ := List.mem_map.mp hli
    exact ⟨c, hc, hxx⟩
  · rintro ⟨c, hc, hx⟩
    rw [← hf, List.mem_flatten]
    exact ⟨c.ips, List.mem_map_of_mem _ hc, hx⟩

theorem clusters_of_disjoint (R : Rand) (input : List InRow) (hR : RandOk R) :
    (clusters_of R input).Pairwise (fun c c' => c.ips.Disjoint c'.ips) :=
  build_clusters_disjoint _ _ _ _ (by decide) (by decide)
    (hub_ips_list_nodup R input hR)

theorem clusters_of_id_pos (R : Rand) (input : List InRow) :
    ∀ c ∈ clusters_of R input, 1 ≤ c.cluster_id :=
  build_clusters_id_pos _ _ _ _ (by decide) (by decide)

theorem mem_clusters_of (R : Rand) (input : List InRow) (x : Nat) :
    x ∈ hub_ips_list R input ↔ ∃ c ∈ clusters_of R input, x ∈ c.ips :=
  mem_build_clusters _ _ _ _ (by decide) (by decide) x

/-! ## Override-engine lemmas -/

theorem overridden_row_spec (R : Rand) (c : Cluster) (u : List String) (i : Nat) (r : Row) :
    (overridden_row R c u i r).toInRow = r.toInRow ∧
    (overridden_row R c u i r).connection_type = r.connection_type ∧
    (overridden_row R c u i r).fraud_cluster_id = c.cluster_id ∧
    (overridden_row R c u i r).is_synthetic_fraud = true ∧
    (overridden_row R c u i r).device_fingerprint = cluster_fingerprint c ∧
    (overridden_row R c u i r).email =
      email_from_handle
        (getU (cluster_email_pool R c.cluster_id) (R.fHandlePick c.cluster_id i))
        (getU fraud_email_domains (R.fDomPick c.cluster_id i)) := by
  by_cases h : R.subSample c.cluster_id i <;>
    simp [overridden_row, h, email_from_handle]

theorem overridden_row_ip (R : Rand) (c : Cluster) (u : List String) (i : Nat) (r : Row) :
    (overridden_row R c u i r).ip = r.ip := by
  have h := (overridden_row_spec R c u i r).1
  exact congrArg InRow.ip h

theorem override_rows_get? (R : Rand) (c : Cluster) (u : List String) :
    ∀ (rs : List Row) (i j : Nat),
      (override_rows R c u i rs).get? j =
        (rs.get? j).map
          (fun r => if r.ip ∈ c.ips then overridden_row R c u (i + j) r else r) := by
  intro rs
  induction rs with
  | nil => intro i j; simp [override_rows]
  | cons r rs ih =>
    intro i j
    cases j with
    | zero => simp [override_rows]
    | succ j =>
      simp only [override_rows, List.get?_cons_succ, ih (i + 1) j]
      have : i + 1 + j = i + (j + 1) := by omega
      rw [this]

theorem override_cluster_get? (R : Rand) (c : Cluster) (rows : List Row) (j : Nat) :
    (override_cluster R c rows).get? j =
      (rows.get? j).map
        (fun r => if r.ip ∈ c.ips then
          overridden_row R c (cluster_universe R c rows) j r else r) := by
  unfold override_cluster
  split
  · rename_i hnone
    cases hj : rows.get? j with
    | none => simp
    | some r =>
      have hm := List.get?_mem hj
      simp [hnone r hm]
  · have h := override_rows_get? R c (cluster_universe R c rows) rows 0 j
    simpa using h

theorem override_rows_length (R : Rand) (c : Cluster) (u : List String) :
    ∀ (rs : List Row) (i : Nat), (override_rows R c u i rs).length = rs.length := by
  intro rs
  induction rs with
  | nil => intro i; simp [override_rows]
  | cons r rs ih => intro i; simp [override_rows, ih (i + 1)]

theorem override_cluster_length (R : Rand) (c : Cluster) (rows : List Row) :
    (override_cluster R c rows).length = rows.length := by
  unfold override_cluster
  split
  · rfl
  · exact override_rows_length R c _ rows 0

theorem base_enrich_rows_get? (R : Rand) :
    ∀ (l : List InRow) (i j : Nat),
      (base_enrich_rows R i l).get? j = (l.get? j).map (fun r => base_enrich R (i + j) r) := by
  intro l
  induction l with
  | nil => intro i j; simp [base_enrich_rows]
  | cons r rs ih =>
    intro i j
    cases j with
    | zero => simp [base_enrich_rows]
    | succ j =>
      simp only [base_enrich_rows, List.get?_cons_succ, ih (i + 1) j]
      have : i + 1 + j = i + (j + 1) := by omega
      rw [this]

theorem base_enrich_rows_length (R : Rand) :
    ∀ (l : List InRow) (i : Nat), (base_enrich_rows R i l).length = l.length := by
  intro l
  induction l with
  | nil => intro i; simp [base_enrich_rows]
  | cons r rs ih => intro i; simp [base_enrich_rows, ih (i + 1)]

/-- Behaviour of the whole cluster loop on the row at index `j`: the input
columns and `connection_type` survive untouched; a row in no cluster survives
whole; a row in some cluster (under pairwise-disjoint hub sets) gets that
cluster's id, fraud flag, shared fingerprint, and a pool e-mail. -/
theorem foldl_override_get? (R : Rand) :
    ∀ (cs : List Cluster) (rows : List Row) (j : Nat) (r : Row),
      rows.get? j = some r →
      cs.Pairwise (fun c c' => c.ips.Disjoint c'.ips) →
      ∃ r', (cs.foldl (fun acc c => override_cluster R c acc) rows).get? j = some r' ∧
        r'.toInRow = r.toInRow ∧
        r'.connection_type = r.connection_type ∧
        ((∀ c ∈ cs, r.ip ∉ c.ips) → r' = r) ∧
        (∀ c ∈ cs, r.ip ∈ c.ips →
          r'.fraud_cluster_id = c.cluster_id ∧
          r'.is_synthetic_fraud = true ∧
          r'.device_fingerprint = cluster_fingerprint c ∧
          r'.email = email_from_handle
            (getU (cluster_email_pool R c.cluster_id) (R.fHandlePick c.cluster_id j))
            (getU fraud_email_domains (R.fDomPick c.cluster_id j))) := by
  intro cs
  induction cs with
  | nil =>
    intro rows j r hr _
    exact ⟨r, by simpa using hr, rfl, rfl, fun _ => rfl, by simp⟩
  | cons c cs ih =>
    intro rows j r hr hdisj
    have hhd : ∀ c' ∈ cs, c.ips.Disjoint c'.ips :=
      fun c' hc' => List.rel_of_pairwise_cons hdisj hc'
    have htl : cs.Pairwise (fun c c' => c.ips.Disjoint c'.ips) := hdisj.of_cons
    by_cases hip : r.ip ∈ c.ips
    · -- this cluster rewrites the row; no later cluster touches it
      set r1 := overridden_row R c (cluster_universe R c rows) j r with hr1
      have hget1 : (override_cluster R c rows).get? j = some r1 := by
        rw [override_cluster_get? R c rows j, hr]
        simp [hip, hr1]
      obtain ⟨r', hget', hfr, hconn, hnone, _⟩ :=
        ih (override_cluster R c rows) j r1 hget1 htl
      have hspec := overridden_row_spec R c (cluster_universe R c rows) j r
      have hr1ip : r1.ip = r.ip := overridden_row_ip R c _ j r
      have hnotouch : ∀ c' ∈ cs, r1.ip ∉ c'.ips := by
        intro c' hc' hmem
        exact hhd c' hc' hip (hr1ip ▸ hmem)
      have hr'r1 : r' = r1 := hnone hnotouch
      refine ⟨r', by simpa using hget', ?_, ?_, ?_, ?_⟩
      · rw [hr'r1, hspec.1]
      · rw [hr'r1, hspec.2.1]
      · intro hall
        exact absurd hip (hall c (List.mem_cons_self c cs))
      · intro c' hc' hip'
        rcases List.mem_cons.mp hc' with rfl | hc'
        · exact hr'r1 ▸ ⟨hspec.2.2.1, hspec.2.2.2.1, hspec.2.2.2.2.1, hspec.2.2.2.2.2⟩
        · exact absurd hip' (hhd c' hc' hip)
    · -- this cluster leaves the row alone
      have hget1 : (override_cluster R c rows).get? j = some r := by
        rw [override_cluster_get? R c rows j, hr]
        simp [hip]
      obtain ⟨r', hget', hfr, hconn, hnone, hsome⟩ :=
        ih (override_cluster R c rows) j r hget1 htl
      refine ⟨r', by simpa using hget', hfr, hconn, ?_, ?_⟩
      · intro hall
        exact hnone (fun c' hc' => hall c' (List.mem_cons_of_mem c hc'))
      · intro c' hc' hip'
        rcases List.mem_cons.mp hc' with rfl | hc'
        · exact absurd hip' hip
        · exact hsome c' hc' hip'

/-! ## Enrichment-level lemmas -/

theorem foldl_override_length (R : Rand) :
    ∀ (cs : List Cluster) (rows : List Row),
      (cs.foldl (fun acc c => override_cluster R c acc) rows).length = rows.length := by
  intro cs
  induction cs with
  | nil => intro rows; rfl
  | cons c cs ih =>
    intro rows
    simp only [List.foldl_cons]
    rw [ih (override_cluster R c rows), override_cluster_length]

theorem enrich_length (R : Rand) (input : List InRow) :
    (enrich R input).length = input.length := by
  unfold enrich
  rw [foldl_override_length, base_enrich_rows_length]

theorem fraud_email_domains_ne_nil : fraud_email_domains ≠ [] := by
  simp [fraud_email_domains]

theorem cluster_email_pool_ne_nil (R : Rand) (hR : RandOk R) (cid : Nat) :
    cluster_email_pool R cid ≠ [] := by
  unfold cluster_email_pool build_email_pool
  intro hnil
  have hperm := hR.poolEnum_perm cid (((List.range EMAIL_VARIANTS_PER_CLUSTER).map (fun i =>
    let h := "frauder" ++ padNum 3 i
    [h, plus_variant (R.vplus cid i) h, dot_variant (R.vdot cid i) h,
     underscore_variant (R.vund cid i) h])).flatten)
  rw [hnil] at hperm
  have hd := hperm.symm.eq_nil
  rw [List.dedup_eq_nil] at hd
  have hmem : ("frauder" ++ padNum 3 0) ∈
      ((List.range EMAIL_VARIANTS_PER_CLUSTER).map (fun i =>
        let h := "frauder" ++ padNum 3 i
        [h, plus_variant (R.vplus cid i) h, dot_variant (R.vdot cid i) h,
         underscore_variant (R.vund cid i) h])).flatten := by
    apply List.mem_flatten.mpr
    refine ⟨(fun i =>
        let h := "frauder" ++ padNum 3 i
        [h, plus_variant (R.vplus cid i) h, dot_variant (R.vdot cid i) h,
         underscore_variant (R.vund cid i) h]) 0,
      List.mem_map_of_mem _ (List.mem_range.mpr ?_), ?_⟩
    · simp [EMAIL_VARIANTS_PER_CLUSTER]
    · simp
  rw [hd] at hmem
  exact absurd hmem (List.not_mem_nil _)

/-- Behaviour of the whole transform on the row at index `j`. -/
theorem enrich_get?_spec (R : Rand) (input : List InRow) (hR : RandOk R) (j : Nat)
    (r0 : InRow) (h : input.get? j = some r0) :
    ∃ r', (enrich R input).get? j = some r' ∧
      r'.toInRow = r0 ∧
      r'.connection_type = (base_enrich R j r0).connection_type ∧
      ((∀ c ∈ clusters_of R input, r0.ip ∉ c.ips) → r' = base_enrich R j r0) ∧
      (∀ c ∈ clusters_of R input, r0.ip ∈ c.ips →
        r'.fraud_cluster_id = c.cluster_id ∧ r'.is_synthetic_fraud = true ∧
        r'.device_fingerprint = cluster_fingerprint c ∧
        r'.email = email_from_handle
          (getU (cluster_email_pool R c.cluster_id) (R.fHandlePick c.cluster_id j))
          (getU fraud_email_domains (R.fDomPick c.cluster_id j))) := by
  have hbase : (base_enrich_rows R 0 input).get? j = some (base_enrich R j r0) := by
    rw [base_enrich_rows_get? R input 0 j, h]
    simp
  obtain ⟨r', hget, hfr, hconn, hnone, hsome⟩ :=
    foldl_override_get? R (clusters_of R input) (base_enrich_rows R 0 input) j
      (base_enrich R j r0) hbase (clusters_of_disjoint R input hR)
  exact ⟨r', hget, hfr, hconn, hnone, hsome⟩

/-- The frame part of the cluster loop needs no disjointness: whatever the
clusters are, the input columns and `connection_type` of every row survive. -/
theorem foldl_override_frame (R : Rand) :
    ∀ (cs : List Cluster) (rows : List Row) (j : Nat) (r : Row),
      rows.get? j = some r →
      ∃ r', (cs.foldl (fun acc c => override_cluster R c acc) rows).get? j = some r' ∧
        r'.toInRow = r.toInRow ∧ r'.connection_type = r.connection_type := by
  intro cs
  induction cs with
  | nil => intro rows j r hr; exact ⟨r, by simpa using hr, rfl, rfl⟩
  | cons c cs ih =>
    intro rows j r hr
    by_cases hip : r.ip ∈ c.ips
    · have hget1 : (override_cluster R c rows).get? j =
          some (overridden_row R c (cluster_universe R c rows) j r) := by
        rw [override_cluster_get? R c rows j, hr]
        simp [hip]
      obtain ⟨r', hget', hfr, hconn⟩ := ih (override_cluster R c rows) j _ hget1
      have hspec := overridden_row_spec R c (cluster_universe R c rows) j r
      exact ⟨r', by simpa using hget', hfr.trans hspec.1, hconn.trans hspec.2.1⟩
    · have hget1 : (override_cluster R c rows).get? j = some r := by
        rw [override_cluster_get? R c rows j, hr]
        simp [hip]
      obtain ⟨r', hget', hfr, hconn⟩ := ih (override_cluster R c rows) j r hget1
      exact ⟨r', by simpa using hget', hfr, hconn⟩

theorem base_enrich_rows_map_toInRow (R : Rand) :
    ∀ (l : List InRow) (i : Nat), (base_enrich_rows R i l).map Row.toInRow = l := by
  intro l
  induction l with
  | nil => intro i; rfl
  | cons r rs ih => intro i; simp [base_enrich_rows, ih (i + 1), base_enrich]

theorem override_rows_map_toInRow (R : Rand) (c : Cluster) (u : List String) :
    ∀ (rs : List Row) (i : Nat),
      (override_rows R c u i rs).map Row.toInRow = rs.map Row.toInRow := by
  intro rs
  induction rs with
  | nil => intro i; rfl
  | cons r rs ih =>
    intro i
    simp only [override_rows, List.map_cons, ih (i + 1)]
    congr 1
    by_cases hip : r.ip ∈ c.ips
    · simp [hip, (overridden_row_spec R c u i r).1]
    · simp [hip]

theorem override_cluster_map_toInRow (R : Rand) (c : Cluster) (rows : List Row) :
    (override_cluster R c rows).map Row.toInRow = rows.map Row.toInRow := by
  unfold override_cluster
  split
  · rfl
  · exact override_rows_map_toInRow R c _ rows 0

theorem enrich_map_toInRow (R : Rand) (input : List InRow) :
    (enrich R input).map Row.toInRow = input := by
  unfold enrich
  have h : ∀ (cs : List Cluster) (rows : List Row),
      (cs.foldl (fun acc c => override_cluster R c acc) rows).map Row.toInRow =
        rows.map Row.toInRow := by
    intro cs
    induction cs with
    | nil => intro rows; rfl
    | cons c cs ih =>
      intro rows
      simp only [List.foldl_cons]
      rw [ih (override_cluster R c rows), override_cluster_map_toInRow]
  rw [h, base_enrich_rows_map_toInRow]

/-! ## Variant-insertion lemmas (for `dot_variant` / `underscore_variant`) -/

theorem getLast?_drop_of_lt {α : Type} :
    ∀ (l : List α) (p : Nat), p < l.length → (l.drop p).getLast? = l.getLast? := by
  intro l
  induction l with
  | nil => intro p hp; simp at hp
  | cons a l' ih =>
    intro p hp
    cases p with
    | zero => rfl
    | succ p =>
      simp only [List.drop_succ_cons]
      have hp' : p < l'.length := by simpa using hp
      rw [ih p hp']
      cases l' with
      | nil => simp at hp'
      | cons b l'' => rw [List.getLast?_cons_cons]

theorem mk_toList (s : String) : String.mk s.toList = s := rfl

/-- `variantCore` on a fresh character and a handle of length at least 3:
the result is one character longer, contains the inserted character exactly
once, keeps the first and last characters, and erasing the inserted
character restores the handle (so the insertion is at an interior position). -/
theorem variantCore_insert (ch : Char) (v : Nat) (l : List Char)
    (hch : ch ∉ l) (hlen : 3 ≤ l.length) :
    (variantCore ch v l).length = l.length + 1 ∧
    (variantCore ch v l).count ch = 1 ∧
    (variantCore ch v l).head? = l.head? ∧
    (variantCore ch v l).getLast? = l.getLast? ∧
    (variantCore ch v l).erase ch = l := by
  have hcond : ¬(ch ∈ l ∨ l.length < 3) := by
    push_neg
    exact ⟨hch, by omega⟩
  have hcore : variantCore ch v l = insertAt ch (randint 1 (l.length - 1) v) l := by
    unfold variantCore
    rw [if_neg hcond]
  set pos := randint 1 (l.length - 1) v with hposdef
  have hpos1 : 1 ≤ pos := randint_lb _ _ _
  have hposU : pos < l.length - 1 := randint_ub _ _ _ (by omega)
  have hposlen : pos ≤ l.length := by omega
  have htlen : (l.take pos).length = pos := by
    rw [List.length_take]
    omega
  have hchtake : ch ∉ l.take pos := fun hx => hch ((List.take_sublist _ _).mem hx)
  have hchdrop : ch ∉ l.drop pos := fun hx => hch ((List.drop_sublist _ _).mem hx)
  rw [hcore]
  unfold insertAt
  refine ⟨?_, ?_, ?_, ?_, ?_⟩
  · rw [List.length_append, htlen, List.length_cons, List.length_drop]
    omega
  · rw [List.count_append, List.count_cons_self, List.count_eq_zero.mpr hchtake,
      List.count_eq_zero.mpr hchdrop]
  · obtain ⟨a, l', rfl⟩ := List.exists_cons_of_ne_nil
      (List.ne_nil_of_length_pos (show 0 < l.length by omega))
    obtain ⟨p, hp⟩ : ∃ p, pos = p + 1 := ⟨pos - 1, by omega⟩
    rw [hp]
    simp [List.take_succ_cons]
  · have hdropne : l.drop pos ≠ [] := by
      apply List.ne_nil_of_length_pos
      rw [List.length_drop]
      omega
    obtain ⟨d, ds, hds⟩ := List.exists_cons_of_ne_nil hdropne
    rw [List.getLast?_append, hds, List.getLast?_cons_cons, ← hds,
      getLast?_drop_of_lt l pos (by omega)]
    cases hx : l.getLast? with
    | none =>
      rw [List.getLast?_eq_none_iff] at hx
      subst hx
      simp at hlen
    | some x => rfl
  · rw [List.erase_append_right _ hchtake, List.erase_cons_head,
      List.take_append_drop]

/-! ## A concrete run (used for witnesses and counterexamples) -/

/-- A concrete oracle bundle: every raw draw is 0, `choice(...,
replace=False)` keeps the input order, and set iteration enumerates in
first-occurrence (deduplication) order. -/
def R0 : Rand :=
  { adPick := fun _ => 0
    countryPick := fun _ => 0
    connPick := fun _ => 0
    domPick := fun _ => 0
    md5trunc := fun _ => ""
    ipPerm := fun l => l
    ipEnum := List.dedup
    sizePick := fun _ => 0
    vplus := fun _ _ => 0
    vdot := fun _ _ => 0
    vund := fun _ _ => 0
    poolEnum := fun _ l => l.dedup
    tadSize := fun _ => 0
    tadPerm := fun _ l => l
    fAdPick := fun _ _ => 0
    fHandlePick := fun _ _ => 0
    fDomPick := fun _ _ => 0
    baseUserPick := fun _ _ => 0
    fUserPick := fun _ _ => 0
    subSample := fun _ _ => false
    noiseCountry := fun _ _ => 0 }

theorem R0_ok : RandOk R0 := by
  constructor
  · intro l; exact List.Perm.refl l
  · intro l; exact List.Perm.refl _
  · intro cid l; exact List.Perm.refl _
  · intro cid l; exact List.Perm.refl _

/-- The same draws as `R0` but the per-cluster e-mail pool set is enumerated
in the reverse order: another run of the very same program with the same seed
and input, in a process whose string-hash iteration order differs. -/
def R2 : Rand := { R0 with poolEnum := fun _ l => l.dedup.reverse }

theorem R2_ok : RandOk R2 := by
  constructor
  · intro l; exact List.Perm.refl l
  · intro l; exact List.Perm.refl _
  · intro cid l; exact (List.reverse_perm _)
  · intro cid l; exact List.Perm.refl _

/-- A one-row input file. -/
def inC : List InRow :=
  [{ ip := 7, app := 1, device := 1, os := 1, channel := 1,
     click_time := "t", attributed_time := "", is_attributed := 0 }]

def dRow : Row :=
  { ip := 0, app := 0, device := 0, os := 0, channel := 0, click_time := "",
    attributed_time := "", is_attributed := 0, ad_id := "", user_id := "",
    country := "", device_fingerprint := "", connection_type := "", email := "",
    fraud_cluster_id := 0, is_synthetic_fraud := false }

/-! ## The claims -/

/-- C1: the claim says two independent runs with the same seed and input are
byte-identical because the per-cluster e-mail pool is given a stable ordering
before ordered sampling.  The code builds the pool as `list(set(pool))`
(line 147) with no sorting, so the pool order depends on the process's
string-hash iteration order, which the seed does not control.  `R0` and `R2`
are two such runs: identical draw sequences, identical input, the same pool
*set* per cluster (third conjunct), differing only in the order the set is
enumerated — and they output different e-mail columns. -/
theorem c1_set_order_breaks_determinism :
    RandOk R0 ∧ RandOk R2 ∧
    (∀ cid l, (R0.poolEnum cid l).Perm (R2.poolEnum cid l)) ∧
    (enrich R0 inC).map Row.email ≠ (enrich R2 inC).map Row.email := by
  refine ⟨R0_ok, R2_ok, fun cid l => (List.reverse_perm _).symm, ?_⟩
  decide

/-- C6: the claim says the cluster fingerprint is order-independent because
the hub-IP set is hashed as a canonically ordered sequence.  The code
(lines 156-158) hashes `c['ips']` in its stored order without sorting: the
same two-element hub set enumerated in its two possible orders yields two
different fingerprints. -/
theorem c6_fingerprint_order_dependent :
    (Cluster.mk 1 [1, 2]).ips.Perm (Cluster.mk 1 [2, 1]).ips ∧
    cluster_fingerprint (Cluster.mk 1 [1, 2]) ≠ cluster_fingerprint (Cluster.mk 1 [2, 1]) := by
  constructor
  · decide
  · decide

/-- C3: for every hub-IP list and oracle draws, the cluster builder with size
range `[m, M]` (`1 ≤ m ≤ M`) partitions the list exactly — concatenating the
clusters' hub lists gives back the whole list (so in particular a final
cluster smaller than `m` is kept, not rejected), distinct hub IPs make the
clusters pairwise disjoint, and the cluster ids are exactly `1, 2, ...,
k` in order with no gaps or reuse. -/
theorem c3_cluster_partition (m M : Nat) (s : Nat → Nat) (l : List Nat)
    (hm : 1 ≤ m) (hM : m ≤ M) :
    ((build_clusters m M s l).map Cluster.ips).flatten = l ∧
    (l.Nodup → (build_clusters m M s l).Pairwise (fun c c' => c.ips.Disjoint c'.ips)) ∧
    (∀ x, x ∈ l ↔ ∃ c ∈ build_clusters m M s l, x ∈ c.ips) ∧
    (build_clusters m M s l).map Cluster.cluster_id =
      List.range' 1 (build_clusters m M s l).length ∧
    (∀ c ∈ build_clusters m M s l, c.ips ≠ [] ∧ c.ips.length ≤ M) :=
  ⟨build_clusters_flatten m M s l hm hM,
   fun hl => build_clusters_disjoint m M s l hm hM hl,
   fun x => mem_build_clusters m M s l hm hM x,
   build_clusters_ids m M s l hm hM,
   (build_clusters_aux_spec m M s hm hM l.length l 0 1 le_rfl).2.2⟩

theorem c3_cluster_partition_witness :
    (1 ≤ 2 ∧ (2 : Nat) ≤ 5 ∧ [10, 20, 30].Nodup) ∧
    (((build_clusters 2 5 (fun _ => 0) [10, 20, 30]).map Cluster.ips).flatten =
        [10, 20, 30] ∧
      ([10, 20, 30].Nodup → (build_clusters 2 5 (fun _ => 0) [10, 20, 30]).Pairwise
        (fun c c' => c.ips.Disjoint c'.ips)) ∧
      (∀ x, x ∈ [10, 20, 30] ↔
        ∃ c ∈ build_clusters 2 5 (fun _ => 0) [10, 20, 30], x ∈ c.ips) ∧
      (build_clusters 2 5 (fun _ => 0) [10, 20, 30]).map Cluster.cluster_id =
        List.range' 1 (build_clusters 2 5 (fun _ => 0) [10, 20, 30]).length ∧
      (∀ c ∈ build_clusters 2 5 (fun _ => 0) [10, 20, 30],
        c.ips ≠ [] ∧ c.ips.length ≤ 5)) :=
  ⟨by decide, c3_cluster_partition 2 5 (fun _ => 0) [10, 20, 30] (by decide) (by decide)⟩

/-- Modelled from the spec: the hub count as the spec's sentence words it,
`max(1, round(|IPs| × f))` with `f = 0.05`, for comparison against the code's
`num_hub_ips` (which truncates). -/
def spec_num_hub_ips (n : Nat) : Nat := max 1 (round ((n : ℚ) * (5 / 100))).toNat

/-- C5 counterexample: with 39 distinct IPs, `39 × 0.05 = 1.95`; the code's
`int(...)` truncation (line 122) gives 1 hub IP while the claim's
`round` gives 2. -/
theorem c5_round_vs_floor :
    num_hub_ips 39 = 1 ∧ spec_num_hub_ips 39 = 2 ∧
    num_hub_ips 39 ≠ spec_num_hub_ips 39 := by
  have h : round (((39 : Nat) : ℚ) * (5 / 100)) = 2 := by norm_num [round_eq]
  have h2 : spec_num_hub_ips 39 = 2 := by
    unfold spec_num_hub_ips
    rw [h]
    rfl
  exact ⟨by decide, h2, by rw [h2]; decide⟩

/-- C5 as amended: the hub selector returns exactly
`max(1, ⌊|IPs| × f⌋)` (truncation, not rounding) distinct IPs drawn without
replacement from the distinct-IP list. -/
theorem c5_hub_selection_size (R : Rand) (input : List InRow) (hR : RandOk R)
    (h : unique_ips input ≠ []) :
    (hub_ips_list R input).length = num_hub_ips (unique_ips input).length ∧
    (hub_ips_list R input).Nodup ∧
    ∀ x ∈ hub_ips_list R input, x ∈ unique_ips input :=
  ⟨hub_ips_list_length R input hR h, hub_ips_list_nodup R input hR,
   hub_ips_list_subset R input hR⟩

theorem c5_hub_selection_size_witness :
    (unique_ips inC ≠ []) ∧
    ((hub_ips_list R0 inC).length = num_hub_ips (unique_ips inC).length ∧
      (hub_ips_list R0 inC).Nodup ∧
      ∀ x ∈ hub_ips_list R0 inC, x ∈ unique_ips inC) :=
  ⟨by decide, c5_hub_selection_size R0 inC R0_ok (by decide)⟩

/-- C2: in every enriched output, a row has a positive `fraud_cluster_id`
exactly when it is flagged synthetic fraud; a row whose IP lies in some
cluster's hub set carries that cluster's id and the flag; a row in no cluster
keeps `fraud_cluster_id = 0` and flag `false`. -/
theorem c2_cluster_flag_invariant (R : Rand) (input : List InRow) (hR : RandOk R) :
    ∀ r ∈ enrich R input,
      (0 < r.fraud_cluster_id ↔ r.is_synthetic_fraud = true) ∧
      (∀ c ∈ clusters_of R input, r.ip ∈ c.ips →
        r.fraud_cluster_id = c.cluster_id ∧ r.is_synthetic_fraud = true) ∧
      ((∀ c ∈ clusters_of R input, r.ip ∉ c.ips) →
        r.fraud_cluster_id = 0 ∧ r.is_synthetic_fraud = false) := by
  intro r hr
  obtain ⟨j, hj⟩ := List.mem_iff_get?.mp hr
  obtain ⟨hlt, -⟩ := List.get?_eq_some.mp hj
  have hjin : j < input.length := by rw [← enrich_length R input]; exact hlt
  have h0 : input.get? j = some (input.get ⟨j, hjin⟩) := List.get?_eq_get hjin
  obtain ⟨r', hget, htoin, hconn, hnone, hsome⟩ :=
    enrich_get?_spec R input hR j _ h0
  have hrr : r' = r := by
    rw [hget] at hj
    exact Option.some.inj hj
  subst hrr
  have hip : r'.ip = (input.get ⟨j, hjin⟩).ip := congrArg InRow.ip htoin
  refine ⟨?_, ?_, ?_⟩
  · by_cases hx : ∃ c ∈ clusters_of R input, (input.get ⟨j, hjin⟩).ip ∈ c.ips
    · obtain ⟨c, hc, hcip⟩ := hx
      obtain ⟨hfid, hflag, -, -⟩ := hsome c hc hcip
      constructor
      · intro _; exact hflag
      · intro _
        rw [hfid]
        exact clusters_of_id_pos R input c hc
    · push_neg at hx
      rw [hnone hx]
      simp [base_enrich]
  · intro c hc hcip
    rw [hip] at hcip
    obtain ⟨hfid, hflag, -, -⟩ := hsome c hc hcip
    exact ⟨hfid, hflag⟩
  · intro hall
    have hall' : ∀ c ∈ clusters_of R input, (input.get ⟨j, hjin⟩).ip ∉ c.ips := by
      intro c hc
      rw [← hip]
      exact hall c hc
    rw [hnone hall']
    exact ⟨rfl, rfl⟩

theorem c2_cluster_flag_invariant_witness :
    ((enrich R0 inC).map Row.fraud_cluster_id = [1] ∧
      (enrich R0 inC).map Row.is_synthetic_fraud = [true]) ∧
    (∀ r ∈ enrich R0 inC,
      (0 < r.fraud_cluster_id ↔ r.is_synthetic_fraud = true) ∧
      (∀ c ∈ clusters_of R0 inC, r.ip ∈ c.ips →
        r.fraud_cluster_id = c.cluster_id ∧ r.is_synthetic_fraud = true) ∧
      ((∀ c ∈ clusters_of R0 inC, r.ip ∉ c.ips) →
        r.fraud_cluster_id = 0 ∧ r.is_synthetic_fraud = false)) :=
  ⟨by decide, c2_cluster_flag_invariant R0 inC R0_ok⟩

/-- C4 counterexample: the fraud-row domain list is not disjoint from the
baseline domain list — `gmail.com` (likewise `outlook.com` and `yahoo.com`)
appears in both. -/
theorem c4_domains_not_disjoint :
    "gmail.com" ∈ fraud_email_domains ∧ "gmail.com" ∈ domains := by
  constructor
  · decide
  · decide

/-- C4 as amended: every fraud row's e-mail is `handle@domain` with the
handle from its cluster's pool and the domain from the fixed fraud-row
domain list; that list is distinct from (but overlaps) the baseline list. -/
theorem c4_fraud_email_shape (R : Rand) (input : List InRow) (hR : RandOk R) :
    (∀ r ∈ enrich R input, 0 < r.fraud_cluster_id →
      ∃ hd ∈ cluster_email_pool R r.fraud_cluster_id,
        ∃ d ∈ fraud_email_domains, r.email = email_from_handle hd d) ∧
    fraud_email_domains ≠ domains := by
  constructor
  · intro r hr hpos
    obtain ⟨j, hj⟩ := List.mem_iff_get?.mp hr
    obtain ⟨hlt, -⟩ := List.get?_eq_some.mp hj
    have hjin : j < input.length := by rw [← enrich_length R input]; exact hlt
    have h0 : input.get? j = some (input.get ⟨j, hjin⟩) := List.get?_eq_get hjin
    obtain ⟨r', hget, htoin, hconn, hnone, hsome⟩ :=
      enrich_get?_spec R input hR j _ h0
    have hrr : r' = r := by
      rw [hget] at hj
      exact Option.some.inj hj
    subst hrr
    by_cases hx : ∃ c ∈ clusters_of R input, (input.get ⟨j, hjin⟩).ip ∈ c.ips
    · obtain ⟨c, hc, hcip⟩ := hx
      obtain ⟨hfid, -, -, hemail⟩ := hsome c hc hcip
      rw [hfid]
      exact ⟨getU (cluster_email_pool R c.cluster_id) (R.fHandlePick c.cluster_id j),
        getU_mem _ _ (cluster_email_pool_ne_nil R hR c.cluster_id),
        getU (fraud_email_domains) (R.fDomPick c.cluster_id j),
        getU_mem _ _ fraud_email_domains_ne_nil, hemail⟩
    · push_neg at hx
      rw [hnone hx] at hpos
      simp [base_enrich] at hpos
  · decide

theorem c4_fraud_email_shape_witness :
    (enrich R0 inC).map Row.email = ["frauder000@gmail.com"] ∧
    ((∀ r ∈ enrich R0 inC, 0 < r.fraud_cluster_id →
      ∃ hd ∈ cluster_email_pool R0 r.fraud_cluster_id,
        ∃ d ∈ fraud_email_domains, r.email = email_from_handle hd d) ∧
      fraud_email_domains ≠ domains) :=
  ⟨by decide, c4_fraud_email_shape R0 inC R0_ok⟩

/-- C7 counterexample: the appended column order the claim states (with
`email` last) is not the order the code creates — `email` is created at
line 114, before `fraud_cluster_id` and `is_synthetic_fraud` (lines 162-163),
so it precedes them in the output header. -/
theorem c7_column_order_counterexample :
    outputColumns ≠ inputColumns ++
      ["ad_id", "user_id", "country", "device_fingerprint", "connection_type",
       "fraud_cluster_id", "is_synthetic_fraud", "email"] := by
  decide

/-- C7 as amended: the output holds exactly the input rows in the original
order and count (projecting every output row to its input columns gives back
the input list), with the added columns appended in creation order
`ad_id, user_id, country, device_fingerprint, connection_type, email,
fraud_cluster_id, is_synthetic_fraud`. -/
theorem c7_row_preservation_and_columns (R : Rand) (input : List InRow) :
    (enrich R input).map Row.toInRow = input ∧
    (outputTable R input).length = input.length + 1 ∧
    outputTable R input = (inputColumns ++ ["ad_id", "user_id", "country",
      "device_fingerprint", "connection_type", "email", "fraud_cluster_id",
      "is_synthetic_fraud"]) :: (enrich R input).map serializeRow := by
  refine ⟨enrich_map_toInRow R input, ?_, rfl⟩
  unfold outputTable
  simp [enrich_length]

/-- C8: the run is read → transform → single final write, with no handler:
a failing read propagates and the run produces no output rows at all, while a
successful run writes the full table.  (Partial files from a crash inside the
final OS-level write are below the granularity of this model; the script
performs no write before line 201.) -/
theorem c8_no_output_on_error (R : Rand) :
    (∀ e, runScript R (Except.error e) = Except.error e) ∧
    ∀ rows, runScript R (Except.ok rows) = Except.ok (outputTable R rows) :=
  ⟨fun _ => rfl, fun _ => rfl⟩

/-- C9: the override engine only ever rewrites `ad_id`, `user_id`, `email`,
`country`, `device_fingerprint`, `fraud_cluster_id`, `is_synthetic_fraud`:
row by row, every input column and the enriched `connection_type` of the
final output agree with the baseline enrichment. -/
theorem c9_frame_preservation (R : Rand) (input : List InRow) :
    List.Forall₂ (fun out base => out.toInRow = base.toInRow ∧
      out.connection_type = base.connection_type)
      (enrich R input) (base_enrich_rows R 0 input) := by
  rw [List.forall₂_iff_get]
  refine ⟨by rw [enrich_length, base_enrich_rows_length], ?_⟩
  intro i h1 h2
  have hbl : (base_enrich_rows R 0 input).length = input.length :=
    base_enrich_rows_length R input 0
  have hiin : i < input.length := by rw [← hbl]; exact h2
  have h0 : input.get? i = some (input.get ⟨i, hiin⟩) := List.get?_eq_get hiin
  have hbase : (base_enrich_rows R 0 input).get? i =
      some (base_enrich R i (input.get ⟨i, hiin⟩)) := by
    rw [base_enrich_rows_get? R input 0 i, h0]
    simp
  obtain ⟨r', hget, hfr, hconn⟩ :=
    foldl_override_frame R (clusters_of R input) (base_enrich_rows R 0 input) i _ hbase
  have hgetE : (enrich R input).get? i = some r' := hget
  have hr' : r' = (enrich R input).get ⟨i, h1⟩ := by
    rw [List.get?_eq_get h1] at hgetE
    exact (Option.some.inj hgetE).symm
  have hb' : (base_enrich_rows R 0 input).get ⟨i, h2⟩ =
      base_enrich R i (input.get ⟨i, hiin⟩) := by
    rw [List.get?_eq_get h2] at hbase
    exact Option.some.inj hbase
  rw [← hr', hb']
  exact ⟨hfr, hconn⟩

/-- C10: on a handle with no `.` and at least 3 characters, `dot_variant`
returns the handle one character longer with exactly one `.`, the first and
last characters unchanged (so the insertion is interior, since the handle
itself has no `.`), and erasing that `.` restores the handle; a handle that
has a `.` or is shorter than 3 characters is returned unchanged; the same
holds for `underscore_variant` with `_`. -/
theorem c10_variant_insertion (v : Nat) (h : String) :
    (('.' ∉ h.toList → 3 ≤ h.toList.length →
        (dot_variant v h).toList.length = h.toList.length + 1 ∧
        (dot_variant v h).toList.count '.' = 1 ∧
        (dot_variant v h).toList.head? = h.toList.head? ∧
        (dot_variant v h).toList.getLast? = h.toList.getLast? ∧
        (dot_variant v h).toList.erase '.' = h.toList) ∧
      ('.' ∈ h.toList ∨ h.toList.length < 3 → dot_variant v h = h)) ∧
    (('_' ∉ h.toList → 3 ≤ h.toList.length →
        (underscore_variant v h).toList.length = h.toList.length + 1 ∧
        (underscore_variant v h).toList.count '_' = 1 ∧
        (underscore_variant v h).toList.head? = h.toList.head? ∧
        (underscore_variant v h).toList.getLast? = h.toList.getLast? ∧
        (underscore_variant v h).toList.erase '_' = h.toList) ∧
      ('_' ∈ h.toList ∨ h.toList.length < 3 → underscore_variant v h = h)) := by
  refine ⟨⟨?_, ?_⟩, ?_, ?_⟩
  · intro hch hlen
    exact variantCore_insert '.' v h.toList hch hlen
  · intro hcond
    unfold dot_variant variantCore
    rw [if_pos hcond]
    exact mk_toList h
  · intro hch hlen
    exact variantCore_insert '_' v h.toList hch hlen
  · intro hcond
    unfold underscore_variant variantCore
    rw [if_pos hcond]
    exact mk_toList h

theorem c10_variant_insertion_witness :
    ('.' ∉ "abc".toList ∧ 3 ≤ "abc".toList.length) ∧
    (dot_variant 0 "abc").toList.count '.' = 1 ∧
    (dot_variant 0 "abc").toList.erase '.' = "abc".toList ∧
    underscore_variant 0 "ab" = "ab" :=
  ⟨⟨by decide, by decide⟩,
   ((c10_variant_insertion 0 "abc").1.1 (by decide) (by decide)).2.1,
   ((c10_variant_insertion 0 "abc").1.1 (by decide) (by decide)).2.2.2.2,
   (c10_variant_insertion 0 "ab").2.2 (Or.inr (by decide))⟩

end FraudEnrich
